import Mathlib

/-!
Verification of the car-pooling service in `main.go` of
jairosaba/coding-challenge-wallbox.

The Go program keeps three pieces of in-memory state: the vehicle fleet
(a slice, in registration order), the waiting-group queue (a slice), and
the group-to-car assignment table (a `map[int]int`).  Four HTTP handlers
(`/evs`, `/journey`, `/dropoff`, `/locate`) mutate or read this state.
We embed the repositories, the service, and the handlers as pure Lean
functions over an explicit `ServerState`, and the server's lifetime as a
trace of operations.

Go `int` is a 64-bit machine integer; the only arithmetic the program
performs is `vehicles[i].Seats - group.People` in `AssignVehicleToGroup`,
which we model with an explicit two's-complement wrap `wrap64`.

The event bus (`EventBus.Emit`) dispatches each event to listeners in
fresh goroutines; the only registered listener logs a line and touches no
modeled state, so emission has no effect on the state model.
-/

namespace CarPooling

/-- A vehicle as decoded from JSON: caller-assigned id and the remaining
seat count (the `Seats` field is mutated in place by the repository). -/
structure Vehicle where
  id : Int
  seats : Int
deriving DecidableEq, Repr

/-- A group as decoded from JSON: id and people count. -/
structure Group where
  id : Int
  people : Int
deriving DecidableEq, Repr

/-- Two's-complement wrap of a mathematical integer into the `int64`
range, modelling Go `int` overflow. -/
def wrap64 (n : Int) : Int :=
  (n + 2 ^ 63) % 2 ^ 64 - 2 ^ 63

/-- `InMemoryVehicleRepository.UpdateVehicleSeats`: walk the fleet slice
and set the `Seats` field of the first vehicle whose id matches, then
`break`; a missing id is silently ignored. -/
def UpdateVehicleSeats : List Vehicle → Int → Int → List Vehicle
  | [], _, _ => []
  | v :: rest, vehicleID, seats =>
      if v.id = vehicleID then { v with seats := seats } :: rest
      else v :: UpdateVehicleSeats rest vehicleID seats

/-- The scan inside `VehicleService.AssignVehicleToGroup`: the first
vehicle (in registration order) whose remaining seats are at least
`people`, if any. -/
def findFit : List Vehicle → Int → Option Vehicle
  | [], _ => none
  | v :: rest, people => if people ≤ v.seats then some v else findFit rest people

/-- `VehicleService.AssignVehicleToGroup`: scan the fleet in order; on the
first vehicle with `Seats >= group.People`, overwrite that vehicle id's
seats with `Seats - group.People` (via `UpdateVehicleSeats`, which itself
searches the whole slice from the front) and return `(id, true)`; if no
vehicle fits, return `(0, false)`.  The result also carries the updated
fleet.  The emitted `VehicleAssigned` event only reaches a logging
listener and is not part of the state. -/
def AssignVehicleToGroup (vehicles : List Vehicle) (group : Group) :
    Int × Bool × List Vehicle :=
  match findFit vehicles group.people with
  | some v => (v.id, true, UpdateVehicleSeats vehicles v.id (wrap64 (v.seats - group.people)))
  | none => (0, false, vehicles)

/-- `VehicleService.ReleaseVehicleSeats`: an absolute seat write, a bare
forward to `UpdateVehicleSeats`. -/
def ReleaseVehicleSeats (vehicles : List Vehicle) (vehicleID seats : Int) :
    List Vehicle :=
  UpdateVehicleSeats vehicles vehicleID seats

/-- `InMemoryVehicleRepository.SaveVehicles`: replace the whole slice. -/
def SaveVehicles (_old vehicles : List Vehicle) : List Vehicle :=
  vehicles

/-- `InMemoryGroupRepository.AddGroup`: append to the tail of the queue. -/
def AddGroup (queue : List Group) (group : Group) : List Group :=
  queue ++ [group]

/-- `InMemoryGroupRepository.FindGroup`: first group in the waiting queue
with the given id, with a found flag; the zero `Group` otherwise.  It
never consults the assignment table. -/
def FindGroup : List Group → Int → Group × Bool
  | [], _ => (⟨0, 0⟩, false)
  | g :: rest, groupID => if g.id = groupID then (g, true) else FindGroup rest groupID

/-- `InMemoryGroupRepository.GetNextWaitingGroup`: head of the queue. -/
def GetNextWaitingGroup : List Group → Group × Bool
  | [] => (⟨0, 0⟩, false)
  | g :: _ => (g, true)

/-- Lookup in a Go `map[int]int`, modelled as an association list. -/
def mapLookup : List (Int × Int) → Int → Option Int
  | [], _ => none
  | (k, v) :: rest, key => if k = key then some v else mapLookup rest key

/-- Go map assignment `m[k] = v`: overwrite the binding if the key is
present, otherwise add it. -/
def mapInsert : List (Int × Int) → Int → Int → List (Int × Int)
  | [], key, val => [(key, val)]
  | (k, v) :: rest, key, val =>
      if k = key then (key, val) :: rest else (k, v) :: mapInsert rest key val

/-- Go `delete(m, k)`: drop the binding for the key. -/
def mapDelete : List (Int × Int) → Int → List (Int × Int)
  | [], _ => []
  | (k, v) :: rest, key => if k = key then rest else (k, v) :: mapDelete rest key

/-- `InMemoryGroupRepository.RemoveGroup`: remove the first queue entry
with the given id and return `true`; if the id is nowhere in the queue,
`delete(repo.groupToCar, groupID)` runs and the result is `false`. -/
def RemoveGroup : List Group → List (Int × Int) → Int →
    List Group × List (Int × Int) × Bool
  | [], groupToCar, groupID => ([], mapDelete groupToCar groupID, false)
  | g :: rest, groupToCar, groupID =>
      if g.id = groupID then (rest, groupToCar, true)
      else
        let r := RemoveGroup rest groupToCar groupID
        (g :: r.1, r.2.1, r.2.2)

/-- The shared in-memory state of the server: `vehicleRepo.vehicles`,
`groupRepo.groupsQueue` and `groupRepo.groupToCar`. -/
structure ServerState where
  vehicles : List Vehicle
  groupsQueue : List Group
  groupToCar : List (Int × Int)
deriving DecidableEq, Repr

/-- The state at process start: empty fleet, empty queue, empty table. -/
def initState : ServerState :=
  ⟨[], [], []⟩

/-- The `PUT /evs` handler on a decoded payload: save the new fleet,
reset the queue to an empty slice and the table to a fresh map. -/
def evsHandler (s : ServerState) (newVehicles : List Vehicle) : ServerState :=
  { vehicles := SaveVehicles s.vehicles newVehicles
    groupsQueue := []
    groupToCar := [] }

/-- The `POST /journey` handler on a decoded payload: try the assignment;
on success record `groupToCar[group.ID] = carID` and answer 200 with the
car id; on failure append the group to the waiting queue and answer 202.
The returned `Bool` is the assigned flag, the `Int` the car id of a
successful response. -/
def journeyHandler (s : ServerState) (group : Group) : ServerState × Bool × Int :=
  let r := AssignVehicleToGroup s.vehicles group
  if r.2.1 then
    ({ s with vehicles := r.2.2, groupToCar := mapInsert s.groupToCar group.id r.1 },
     true, r.1)
  else
    ({ s with groupsQueue := AddGroup s.groupsQueue group }, false, 0)

/-- The `POST /dropoff` handler on a decoded id: if the table holds the
id, read the group back through `FindGroup` (which searches only the
waiting queue), write that group's `People` into the car's seats through
`ReleaseVehicleSeats`, delete the table entry and answer 200 (`true`);
otherwise answer 404 Not Found (`false`). -/
def dropoffHandler (s : ServerState) (groupID : Int) : ServerState × Bool :=
  match mapLookup s.groupToCar groupID with
  | some carID =>
      let g := (FindGroup s.groupsQueue groupID).1
      ({ s with vehicles := ReleaseVehicleSeats s.vehicles carID g.people
                groupToCar := mapDelete s.groupToCar groupID },
       true)
  | none => (s, false)

/-- The `POST /locate` handler on a decoded id: the assigned car id when
the table holds the group, `none` (HTTP 204, the NoAssignment answer)
otherwise.  It never mutates state. -/
def locateHandler (s : ServerState) (groupID : Int) : Option Int :=
  mapLookup s.groupToCar groupID

/-- One decoded request against the service. -/
inductive Op
  | register (vehicles : List Vehicle)
  | journey (group : Group)
  | dropoff (groupID : Int)
  | locate (groupID : Int)
deriving DecidableEq, Repr

/-- The state transition of one request. -/
def step (s : ServerState) : Op → ServerState
  | .register vs => evsHandler s vs
  | .journey g => (journeyHandler s g).1
  | .dropoff gid => (dropoffHandler s gid).1
  | .locate _ => s

/-- Run a trace of requests from a state. -/
def run (s : ServerState) : List Op → ServerState
  | [] => s
  | op :: ops => run (step s op) ops

/-- The fleet list supplied by the most recent `register` of a trace:
each vehicle's stated seat count there is its original capacity. -/
def lastFleet (ops : List Op) : List Vehicle :=
  ops.foldl (fun acc op => match op with | .register vs => vs | _ => acc) []

/-- A request that respects the spec's data model in the current state:
registered fleets carry pairwise-distinct vehicle ids and non-negative
`int64` seat counts; journey requests carry a positive `int64` people
count and an id that is not already active (neither waiting nor riding).
Drop-off and locate requests are always admissible. -/
def validOp (s : ServerState) : Op → Prop
  | .register vs => (vs.map Vehicle.id).Nodup ∧ ∀ v ∈ vs, 0 ≤ v.seats ∧ v.seats < 2 ^ 63
  | .journey g => 0 < g.people ∧ g.people < 2 ^ 63 ∧
      (∀ g2 ∈ s.groupsQueue, g2.id ≠ g.id) ∧ mapLookup s.groupToCar g.id = none
  | .dropoff _ => True
  | .locate _ => True

instance (s : ServerState) (op : Op) : Decidable (validOp s op) := by
  cases op <;> simp only [validOp] <;> infer_instance

/-- A trace of requests each of which is valid in the state it meets. -/
def validTrace : ServerState → List Op → Prop
  | _, [] => True
  | s, op :: ops => validOp s op ∧ validTrace (step s op) ops

instance instDecValidTrace : (s : ServerState) → (ops : List Op) →
    Decidable (validTrace s ops)
  | _, [] => isTrue trivial
  | s, op :: ops =>
      haveI : Decidable (validTrace (step s op) ops) := instDecValidTrace _ _
      inferInstanceAs (Decidable (_ ∧ _))

/-- The capacity relation between a vehicle as registered (`c`) and its
current repository entry (`v`): same id, seats within `0 ≤ seats ≤
original seats`. -/
def capBound (c v : Vehicle) : Prop :=
  v.id = c.id ∧ 0 ≤ v.seats ∧ v.seats ≤ c.seats

/-- The inductive invariant of valid executions: the registered fleet has
distinct ids and non-negative bounded capacities, the live fleet matches
it pointwise within capacity, and no waiting group id is assigned. -/
def Inv (caps : List Vehicle) (s : ServerState) : Prop :=
  (caps.map Vehicle.id).Nodup ∧
  (∀ c ∈ caps, 0 ≤ c.seats ∧ c.seats < 2 ^ 63) ∧
  List.Forall₂ capBound caps s.vehicles ∧
  ∀ g ∈ s.groupsQueue, mapLookup s.groupToCar g.id = none

/-- The registered-capacity list after one request. -/
def stepCaps (caps : List Vehicle) : Op → List Vehicle
  | .register vs => vs
  | _ => caps

/-- The registered-capacity list after a trace. -/
def runCaps (caps : List Vehicle) (ops : List Op) : List Vehicle :=
  ops.foldl (fun acc op => match op with | .register vs => vs | _ => acc) caps

/-- Whether some group in the waiting queue has the given id. -/
def containsGroupId : List Group → Int → Bool
  | [], _ => false
  | g :: rest, gid => if g.id = gid then true else containsGroupId rest gid

/-- Removal of the first queue entry with the given id, the queue-side
effect the spec ascribes to dequeueById. -/
def removeFirstById : List Group → Int → List Group
  | [], _ => []
  | g :: rest, gid => if g.id = gid then rest else g :: removeFirstById rest gid

theorem wrap64_eq_self {n : Int} (h1 : -2 ^ 63 ≤ n) (h2 : n < 2 ^ 63) :
    wrap64 n = n := by
  have ha : (0 : Int) ≤ n + 2 ^ 63 := by omega
  have hb : n + 2 ^ 63 < 2 ^ 64 := by omega
  unfold wrap64
  rw [Int.emod_eq_of_lt ha hb]
  omega

theorem findFit_mem {l : List Vehicle} {p : Int} {v : Vehicle}
    (h : findFit l p = some v) : v ∈ l := by
  induction l with
  | nil => simp [findFit] at h
  | cons w rest ih =>
      simp only [findFit] at h
      by_cases hw : p ≤ w.seats
      · simp [hw] at h
        exact h ▸ List.mem_cons_self w rest
      · simp [hw] at h
        exact List.mem_cons_of_mem w (ih h)

theorem findFit_le {l : List Vehicle} {p : Int} {v : Vehicle}
    (h : findFit l p = some v) : p ≤ v.seats := by
  induction l with
  | nil => simp [findFit] at h
  | cons w rest ih =>
      simp only [findFit] at h
      by_cases hw : p ≤ w.seats
      · simp [hw] at h
        exact h ▸ hw
      · simp [hw] at h
        exact ih h

theorem findFit_eq_none {l : List Vehicle} {p : Int}
    (h : ∀ v ∈ l, v.seats < p) : findFit l p = none := by
  induction l with
  | nil => rfl
  | cons w rest ih =>
      have hw : ¬ p ≤ w.seats := by
        have := h w (List.mem_cons_self w rest)
        omega
      simp only [findFit, hw, if_false]
      exact ih fun v hv => h v (List.mem_cons_of_mem w hv)

theorem forall₂_mem_right {r : Vehicle → Vehicle → Prop} {as bs : List Vehicle}
    (h : List.Forall₂ r as bs) {b : Vehicle} (hb : b ∈ bs) :
    ∃ a ∈ as, r a b := by
  induction h with
  | nil => cases hb
  | cons h1 _h2 ih =>
      rcases List.mem_cons.mp hb with rfl | hb2
      · exact ⟨_, List.mem_cons_self _ _, h1⟩
      · obtain ⟨a, ha, har⟩ := ih hb2
        exact ⟨a, List.mem_cons_of_mem _ ha, har⟩

theorem update_forall₂ {caps vs : List Vehicle}
    (h : List.Forall₂ capBound caps vs) (vid val : Int)
    (hval : ∀ c ∈ caps, c.id = vid → 0 ≤ val ∧ val ≤ c.seats) :
    List.Forall₂ capBound caps (UpdateVehicleSeats vs vid val) := by
  induction h with
  | nil => exact .nil
  | @cons a b as bs h1 h2 ih =>
      simp only [UpdateVehicleSeats]
      by_cases hid : b.id = vid
      · simp only [hid, if_true]
        refine .cons ⟨hid ▸ h1.1, ?_⟩ h2
        exact hval a (List.mem_cons_self a as) (by rw [← h1.1, hid])
      · simp only [hid, if_false]
        exact .cons h1 (ih fun c hc => hval c (List.mem_cons_of_mem a hc))

theorem mapLookup_insert_ne {m : List (Int × Int)} {k k2 v : Int}
    (h : k2 ≠ k) : mapLookup (mapInsert m k v) k2 = mapLookup m k2 := by
  induction m with
  | nil => simp [mapInsert, mapLookup, Ne.symm h]
  | cons p rest ih =>
      obtain ⟨pk, pv⟩ := p
      simp only [mapInsert]
      by_cases hk : pk = k
      · simp [mapLookup, hk, Ne.symm h]
      · simp only [hk, if_false, mapLookup]
        by_cases hk2 : pk = k2
        · simp [hk2]
        · simp [hk2, ih]

theorem mapLookup_delete_none {m : List (Int × Int)} {k j : Int}
    (h : mapLookup m k = none) : mapLookup (mapDelete m j) k = none := by
  induction m with
  | nil => rfl
  | cons p rest ih =>
      obtain ⟨pk, pv⟩ := p
      simp only [mapLookup] at h
      by_cases hk : pk = k
      · simp [hk] at h
      · simp only [hk, if_false] at h
        simp only [mapDelete]
        by_cases hj : pk = j
        · simp [hj, h]
        · simp only [hj, if_false, mapLookup, hk, if_false]
          exact ih h

theorem FindGroup_of_not_mem {q : List Group} {gid : Int}
    (h : ∀ g ∈ q, g.id ≠ gid) : FindGroup q gid = (⟨0, 0⟩, false) := by
  induction q with
  | nil => rfl
  | cons g rest ih =>
      have hg : g.id ≠ gid := h g (List.mem_cons_self g rest)
      simp only [FindGroup, hg, if_false]
      exact ih fun g2 hg2 => h g2 (List.mem_cons_of_mem g hg2)

theorem inv_step {caps : List Vehicle} {s : ServerState} {op : Op}
    (hInv : Inv caps s) (hop : validOp s op) :
    Inv (stepCaps caps op) (step s op) := by
  obtain ⟨hnodup, hcaps, hveh, hdisj⟩ := hInv
  cases op with
  | register vs =>
      obtain ⟨hn, hb⟩ := hop
      refine ⟨hn, hb, ?_, ?_⟩
      · clear hn
        induction vs with
        | nil => exact .nil
        | cons v rest ih =>
            refine .cons ⟨rfl, (hb v (List.mem_cons_self v rest)).1, le_refl _⟩ ?_
            exact ih fun v2 hv2 => hb v2 (List.mem_cons_of_mem v hv2)
      · intro g hg
        cases hg
  | locate gid => exact ⟨hnodup, hcaps, hveh, hdisj⟩
  | dropoff gid =>
      simp only [step, dropoffHandler, stepCaps]
      cases hlk : mapLookup s.groupToCar gid with
      | none => exact ⟨hnodup, hcaps, hveh, hdisj⟩
      | some carID =>
          have hgid : ∀ g ∈ s.groupsQueue, g.id ≠ gid := by
            intro g hg heq
            have hnone := hdisj g hg
            rw [heq, hlk] at hnone
            cases hnone
          refine ⟨hnodup, hcaps, ?_, ?_⟩
          · show List.Forall₂ capBound caps
              (ReleaseVehicleSeats s.vehicles carID (FindGroup s.groupsQueue gid).1.people)
            rw [FindGroup_of_not_mem hgid]
            exact update_forall₂ hveh carID 0 fun c hc _ => ⟨le_refl 0, (hcaps c hc).1⟩
          · intro g hg
            exact mapLookup_delete_none (hdisj g hg)
  | journey g =>
      obtain ⟨hp0, hpb, hfreshq, hfresht⟩ := hop
      simp only [step, journeyHandler, stepCaps]
      cases hff : findFit s.vehicles g.people with
      | none =>
          simp only [AssignVehicleToGroup, hff]
          refine ⟨hnodup, hcaps, hveh, ?_⟩
          intro g2 hg2
          rcases List.mem_append.mp hg2 with hg2 | hg2
          · exact hdisj g2 hg2
          · exact List.mem_singleton.mp hg2 ▸ hfresht
      | some v =>
          have hvmem : v ∈ s.vehicles := findFit_mem hff
          have hfit : g.people ≤ v.seats := findFit_le hff
          obtain ⟨c0, hc0, hcb⟩ := forall₂_mem_right hveh hvmem
          have hc0b := hcaps c0 hc0
          have hvc0 : v.seats ≤ c0.seats := hcb.2.2
          have hwrap : wrap64 (v.seats - g.people) = v.seats - g.people :=
            wrap64_eq_self (by omega) (by omega)
          simp only [AssignVehicleToGroup, hff, hwrap, if_true]
          refine ⟨hnodup, hcaps, ?_, ?_⟩
          · apply update_forall₂ hveh
            intro c hc hcid
            have hceq : c = c0 :=
              List.inj_on_of_nodup_map hnodup hc hc0 (by rw [hcid, hcb.1])
            subst hceq
            exact ⟨by omega, by omega⟩
          · intro g2 hg2
            rw [mapLookup_insert_ne (hfreshq g2 hg2)]
            exact hdisj g2 hg2

theorem runCaps_cons (caps : List Vehicle) (op : Op) (ops : List Op) :
    runCaps caps (op :: ops) = runCaps (stepCaps caps op) ops := by
  cases op <;> rfl

theorem inv_run {caps : List Vehicle} {s : ServerState} {ops : List Op}
    (hInv : Inv caps s) (hvalid : validTrace s ops) :
    Inv (runCaps caps ops) (run s ops) := by
  induction ops generalizing caps s with
  | nil => exact hInv
  | cons op ops ih =>
      obtain ⟨hop, hops⟩ := hvalid
      rw [runCaps_cons]
      exact ih (inv_step hInv hop) hops

theorem inv_init : Inv [] initState := by
  refine ⟨List.nodup_nil, ?_, .nil, ?_⟩ <;> intro x hx <;> cases hx

theorem findFit_eq_get {l : List Vehicle} {p : Int} {i : Nat} (hi : i < l.length)
    (hfit : p ≤ (l.get ⟨i, hi⟩).seats)
    (hfirst : ∀ j (hj : j < i), (l.get ⟨j, Nat.lt_trans hj hi⟩).seats < p) :
    findFit l p = some (l.get ⟨i, hi⟩) := by
  induction l generalizing i with
  | nil => cases hi
  | cons v rest ih =>
      cases i with
      | zero =>
          simp only [List.get] at hfit
          simp [findFit, hfit]
      | succ j =>
          have hv : v.seats < p := hfirst 0 (Nat.succ_pos j)
          have hnv : ¬ p ≤ v.seats := by omega
          simp only [findFit, hnv, if_false]
          exact ih (Nat.lt_of_succ_lt_succ hi) hfit
            fun k hk => hfirst (k + 1) (Nat.succ_lt_succ hk)

theorem update_eq_set {l : List Vehicle} (hnodup : (l.map Vehicle.id).Nodup)
    {i : Nat} (hi : i < l.length) (val : Int) :
    UpdateVehicleSeats l (l.get ⟨i, hi⟩).id val =
      l.set i { l.get ⟨i, hi⟩ with seats := val } := by
  induction l generalizing i with
  | nil => cases hi
  | cons v rest ih =>
      cases i with
      | zero => simp [UpdateVehicleSeats, List.set]
      | succ j =>
          have hj : j < rest.length := Nat.lt_of_succ_lt_succ hi
          have hvid : v.id ∉ rest.map Vehicle.id := (List.nodup_cons.mp hnodup).1
          have hne : ¬ v.id = (rest.get ⟨j, hj⟩).id := by
            intro h
            exact hvid (h ▸ List.mem_map_of_mem Vehicle.id (rest.get_mem j hj))
          simp only [List.get, UpdateVehicleSeats, hne, if_false, List.set]
          rw [ih (List.nodup_cons.mp hnodup).2 hj]

theorem FindGroup_append_self {q : List Group} {g : Group}
    (h : ∀ g2 ∈ q, g2.id ≠ g.id) : FindGroup (q ++ [g]) g.id = (g, true) := by
  induction q with
  | nil => simp [FindGroup]
  | cons g2 rest ih =>
      have hne : g2.id ≠ g.id := h g2 (List.mem_cons_self g2 rest)
      simp only [List.cons_append, FindGroup, hne, if_false]
      exact ih fun g3 h3 => h g3 (List.mem_cons_of_mem g2 h3)

/-- Claim C1: on a fleet with distinct vehicle ids and seat counts in the
data model's range, a journey request for a positive people count that
fits some vehicle is assigned to the first fitting vehicle in
registration order, that vehicle's remaining seats drop by exactly the
people count, and the assignment is recorded; everything else is
untouched (first-fit). -/
theorem C1_first_fit_assign (s : ServerState) (g : Group) (i : Nat)
    (hi : i < s.vehicles.length)
    (hnodup : (s.vehicles.map Vehicle.id).Nodup)
    (hbounds : ∀ v ∈ s.vehicles, 0 ≤ v.seats ∧ v.seats < 2 ^ 63)
    (hpos : 0 < g.people)
    (hfit : g.people ≤ (s.vehicles.get ⟨i, hi⟩).seats)
    (hfirst : ∀ j (hj : j < i), (s.vehicles.get ⟨j, Nat.lt_trans hj hi⟩).seats < g.people) :
    journeyHandler s g =
      ({ s with
          vehicles := s.vehicles.set i
            { s.vehicles.get ⟨i, hi⟩ with
                seats := (s.vehicles.get ⟨i, hi⟩).seats - g.people }
          groupToCar := mapInsert s.groupToCar g.id (s.vehicles.get ⟨i, hi⟩).id },
        true, (s.vehicles.get ⟨i, hi⟩).id) := by
  have hff := findFit_eq_get hi hfit hfirst
  have hv := hbounds _ (s.vehicles.get_mem i hi)
  have hwrap := wrap64_eq_self
    (n := (s.vehicles.get ⟨i, hi⟩).seats - g.people) (by omega) (by omega)
  simp only [journeyHandler, AssignVehicleToGroup, hff, hwrap, if_true]
  rw [update_eq_set hnodup hi]

/-- Claim C1 witness: a two-vehicle fleet where the second vehicle is the
first fit for a party of three. -/
theorem C1_first_fit_assign_witness :
    journeyHandler ⟨[⟨1, 1⟩, ⟨2, 5⟩], [], []⟩ ⟨9, 3⟩ =
      (⟨[⟨1, 1⟩, ⟨2, 2⟩], [], [(9, 2)]⟩, true, 2) := by
  have h := C1_first_fit_assign ⟨[⟨1, 1⟩, ⟨2, 5⟩], [], []⟩ ⟨9, 3⟩ 1
    (by decide) (by decide) (by decide) (by decide) (by decide)
    (by
      intro j hj
      have hj0 : j = 0 := by omega
      subst hj0
      show ((⟨[⟨1, 1⟩, ⟨2, 5⟩], [], []⟩ : ServerState).vehicles.get
        ⟨0, by decide⟩).seats < (⟨9, 3⟩ : Group).people
      decide)
  exact h.trans (by decide)

/-- Claim C2 (code bug): after registering a four-seat vehicle and
assigning a party of three, drop-off does NOT restore the vehicle's
remaining seats to the pre-assignment value 4.  The handler reads the
group back with FindGroup, which searches only the waiting queue and so
misses riding groups, yielding a zero people count, and
ReleaseVehicleSeats overwrites the seat field with that value instead of
adding it back: the vehicle ends with 0 remaining seats.  The assignment
itself is removed, so a later locate answers NoAssignment. -/
theorem C2_dropoff_zeroes_seats :
    run initState [.register [⟨1, 4⟩], .journey ⟨1, 3⟩, .dropoff 1] =
      ⟨[⟨1, 0⟩], [], []⟩ ∧
    (run initState [.register [⟨1, 4⟩], .journey ⟨1, 3⟩, .dropoff 1]).vehicles ≠
      (run initState [.register [⟨1, 4⟩]]).vehicles ∧
    locateHandler (run initState [.register [⟨1, 4⟩], .journey ⟨1, 3⟩, .dropoff 1]) 1 =
      none := by
  decide

/-- Claim C3 counterexample: the service validates nothing, so a journey
request with a negative people count is accepted and drives a vehicle's
remaining seats above its registered capacity: after registering a
four-seat vehicle, a journey for -5 people leaves it with 9 seats. -/
theorem C3_counterexample :
    ∃ v ∈ (run initState [.register [⟨1, 4⟩], .journey ⟨1, -5⟩]).vehicles,
      ∃ c ∈ lastFleet [.register [⟨1, 4⟩], .journey ⟨1, -5⟩],
        c.id = v.id ∧ ¬ v.seats ≤ c.seats := by
  decide

/-- Claim C3 as amended: along traces whose requests respect the data
model (distinct vehicle ids, seat counts in the int64 range and
non-negative, positive bounded people counts, no reuse of an active group
id), every vehicle in every reachable state keeps its registered id and
remaining seats between 0 and its original capacity. -/
theorem C3_seats_within_capacity (ops : List Op)
    (h : validTrace initState ops) :
    List.Forall₂ capBound (lastFleet ops) (run initState ops).vehicles :=
  (inv_run inv_init h).2.2.1

/-- Claim C3 amended witness: register a fleet, seat a party of three,
fail to seat a party of nine, and drop the first party off. -/
theorem C3_seats_within_capacity_witness :
    validTrace initState
      [.register [⟨1, 4⟩], .journey ⟨7, 3⟩, .journey ⟨8, 9⟩, .dropoff 7] ∧
    List.Forall₂ capBound
      (lastFleet [.register [⟨1, 4⟩], .journey ⟨7, 3⟩, .journey ⟨8, 9⟩, .dropoff 7])
      (run initState
        [.register [⟨1, 4⟩], .journey ⟨7, 3⟩, .journey ⟨8, 9⟩, .dropoff 7]).vehicles :=
  ⟨by decide, C3_seats_within_capacity _ (by decide)⟩

/-- Claim C4 counterexample: nothing stops a journey request from reusing
a waiting group's id, and a successful assignment does not dequeue it:
after a four-seat fleet is registered, a party of ten with id 7 is
queued, then a party of two with the same id 7 is assigned — id 7 is now
in the assignment table AND in the waiting queue, refuting the claimed
iff in every reading (a fresh id also sits in neither structure). -/
theorem C4_counterexample :
    mapLookup (run initState
      [.register [⟨1, 4⟩], .journey ⟨7, 10⟩, .journey ⟨7, 2⟩]).groupToCar 7 =
      some 1 ∧
    ∃ g ∈ (run initState
      [.register [⟨1, 4⟩], .journey ⟨7, 10⟩, .journey ⟨7, 2⟩]).groupsQueue,
      g.id = 7 := by
  decide

/-- Claim C4 as amended: along traces whose journey requests never reuse
an active group id, no group id is simultaneously in the waiting queue
and in the assignment table; for an active id the table and the queue are
therefore mutually exclusive. -/
theorem C4_queue_table_exclusive (ops : List Op)
    (h : validTrace initState ops) :
    ∀ g ∈ (run initState ops).groupsQueue,
      mapLookup (run initState ops).groupToCar g.id = none :=
  (inv_run inv_init h).2.2.2

/-- Claim C4 amended witness: a trace leaving one riding group and one
waiting group. -/
theorem C4_queue_table_exclusive_witness :
    validTrace initState [.register [⟨1, 4⟩], .journey ⟨7, 3⟩, .journey ⟨8, 9⟩] ∧
    ∀ g ∈ (run initState
      [.register [⟨1, 4⟩], .journey ⟨7, 3⟩, .journey ⟨8, 9⟩]).groupsQueue,
      mapLookup (run initState
        [.register [⟨1, 4⟩], .journey ⟨7, 3⟩, .journey ⟨8, 9⟩]).groupToCar g.id =
        none :=
  ⟨by decide, C4_queue_table_exclusive _ (by decide)⟩

/-- Claim C5: when no vehicle has enough remaining seats for a fresh
group, the journey handler answers assigned=false, appends the group to
the waiting queue — where FindGroup then retrieves it — and leaves the
assignment table without an entry for it. -/
theorem C5_no_fit_enqueues (s : ServerState) (g : Group)
    (hnofit : ∀ v ∈ s.vehicles, v.seats < g.people)
    (hfreshq : ∀ g2 ∈ s.groupsQueue, g2.id ≠ g.id)
    (hfresht : mapLookup s.groupToCar g.id = none) :
    journeyHandler s g = ({ s with groupsQueue := s.groupsQueue ++ [g] }, false, 0) ∧
    FindGroup ((journeyHandler s g).1).groupsQueue g.id = (g, true) ∧
    mapLookup ((journeyHandler s g).1).groupToCar g.id = none := by
  have hff := findFit_eq_none hnofit
  have h1 : journeyHandler s g =
      ({ s with groupsQueue := s.groupsQueue ++ [g] }, false, 0) := by
    simp [journeyHandler, AssignVehicleToGroup, hff, AddGroup]
  refine ⟨h1, ?_, ?_⟩
  · rw [h1]
    exact FindGroup_append_self hfreshq
  · rw [h1]
    exact hfresht

/-- Claim C5 witness: a single one-seat vehicle cannot take a party of
three. -/
theorem C5_no_fit_enqueues_witness :
    journeyHandler ⟨[⟨1, 1⟩], [], []⟩ ⟨5, 3⟩ = (⟨[⟨1, 1⟩], [⟨5, 3⟩], []⟩, false, 0) ∧
    FindGroup ((journeyHandler ⟨[⟨1, 1⟩], [], []⟩ ⟨5, 3⟩).1).groupsQueue 5 =
      (⟨5, 3⟩, true) ∧
    mapLookup ((journeyHandler ⟨[⟨1, 1⟩], [], []⟩ ⟨5, 3⟩).1).groupToCar 5 = none := by
  have h := C5_no_fit_enqueues ⟨[⟨1, 1⟩], [], []⟩ ⟨5, 3⟩
    (by decide) (by decide) (by decide)
  exact ⟨h.1.trans (by decide), h.2.1, h.2.2⟩

/-- Claim C6: registering a fleet installs the given vehicle list — each
vehicle keeping its stated seat count as its remaining seats — and resets
the waiting queue and the assignment table to empty, whatever the prior
state was. -/
theorem C6_register_resets (s : ServerState) (vs : List Vehicle) :
    evsHandler s vs = ⟨vs, [], []⟩ :=
  rfl

/-- Claim C7: a drop-off for a group id with no current assignment
answers Not Found and returns the state unchanged — fleet, queue and
table alike. -/
theorem C7_dropoff_not_found (s : ServerState) (gid : Int)
    (h : mapLookup s.groupToCar gid = none) :
    dropoffHandler s gid = (s, false) := by
  simp [dropoffHandler, h]

/-- Claim C7 witness: dropping off a never-seen id on a populated
state. -/
theorem C7_dropoff_not_found_witness :
    dropoffHandler ⟨[⟨1, 4⟩], [⟨9, 6⟩], [(2, 1)]⟩ 3 =
      (⟨[⟨1, 4⟩], [⟨9, 6⟩], [(2, 1)]⟩, false) :=
  C7_dropoff_not_found ⟨[⟨1, 4⟩], [⟨9, 6⟩], [(2, 1)]⟩ 3 (by decide)

/-- Claim C8 counterexample: a waiting-only group cannot be dropped off
at all.  In the reachable state where the party of ten with id 7 waits,
drop-off for id 7 finds no assignment, answers Not Found, and the group
stays in the queue — it is not removed from the structure holding it. -/
theorem C8_counterexample :
    run initState [.register [⟨1, 4⟩], .journey ⟨7, 10⟩] =
      ⟨[⟨1, 4⟩], [⟨7, 10⟩], []⟩ ∧
    dropoffHandler ⟨[⟨1, 4⟩], [⟨7, 10⟩], []⟩ 7 =
      (⟨[⟨1, 4⟩], [⟨7, 10⟩], []⟩, false) ∧
    ∃ g ∈ (dropoffHandler ⟨[⟨1, 4⟩], [⟨7, 10⟩], []⟩ 7).1.groupsQueue, g.id = 7 := by
  decide

/-- Claim C8 as amended: the drop-off handler never touches the waiting
queue — in every state and for every id, the queue after a drop-off is
exactly the queue before it, so a waiting group leaves the queue only
through a fleet re-registration. -/
theorem C8_dropoff_preserves_queue (s : ServerState) (gid : Int) :
    ((dropoffHandler s gid).1).groupsQueue = s.groupsQueue := by
  unfold dropoffHandler
  cases mapLookup s.groupToCar gid <;> rfl

/-- Claim C9 counterexample: RemoveGroup on an id absent from the queue
does not leave the assignment table unchanged — it deletes the id's
binding from the table on its not-found path. -/
theorem C9_counterexample :
    RemoveGroup [] [(5, 1)] 5 = ([], [], false) ∧
    ([] : List (Int × Int)) ≠ [(5, 1)] := by
  decide

/-- Claim C9 as amended: RemoveGroup removes the first queue entry with
the given id and reports whether one was found, leaving the table alone
when the id is in the queue; when the id is not in the queue it
additionally deletes the id's binding from the assignment table. -/
theorem C9_remove_group_characterization (q : List Group)
    (m : List (Int × Int)) (gid : Int) :
    RemoveGroup q m gid =
      if containsGroupId q gid then (removeFirstById q gid, m, true)
      else (q, mapDelete m gid, false) := by
  induction q with
  | nil => simp [RemoveGroup, containsGroupId, removeFirstById]
  | cons g rest ih =>
      by_cases hg : g.id = gid
      · simp [RemoveGroup, containsGroupId, removeFirstById, hg]
      · simp only [RemoveGroup, containsGroupId, removeFirstById, hg, if_false]
        rw [ih]
        by_cases hc : containsGroupId rest gid = true
        · simp [hc]
        · simp [hc]

/-- Claim C10: people counts are never validated, so a journey request
for zero or negatively many people is accepted: on a fleet of int64 seat
counts with distinct ids, the first vehicle whose seats are at least the
(non-positive) people count is assigned, and a strictly negative count
strictly increases that vehicle's remaining seats. -/
theorem C10_nonpositive_people (vehicles : List Vehicle) (g : Group) (i : Nat)
    (hi : i < vehicles.length)
    (hnodup : (vehicles.map Vehicle.id).Nodup)
    (_hnp : g.people ≤ 0)
    (_hlow : -2 ^ 63 ≤ (vehicles.get ⟨i, hi⟩).seats)
    (hnoflow : (vehicles.get ⟨i, hi⟩).seats - g.people < 2 ^ 63)
    (hfit : g.people ≤ (vehicles.get ⟨i, hi⟩).seats)
    (hfirst : ∀ j (hj : j < i), (vehicles.get ⟨j, Nat.lt_trans hj hi⟩).seats < g.people) :
    AssignVehicleToGroup vehicles g =
      ((vehicles.get ⟨i, hi⟩).id, true,
        vehicles.set i
          { vehicles.get ⟨i, hi⟩ with
              seats := (vehicles.get ⟨i, hi⟩).seats - g.people }) ∧
    (g.people < 0 →
      (vehicles.get ⟨i, hi⟩).seats < (vehicles.get ⟨i, hi⟩).seats - g.people) := by
  have hff := findFit_eq_get hi hfit hfirst
  have hwrap := wrap64_eq_self
    (n := (vehicles.get ⟨i, hi⟩).seats - g.people) (by omega) hnoflow
  constructor
  · simp only [AssignVehicleToGroup, hff, hwrap]
    rw [update_eq_set hnodup hi]
  · intro hneg
    omega

/-- Claim C10 witness: a party of minus two on a four-seat vehicle is
assigned to it and raises its remaining seats to six. -/
theorem C10_nonpositive_people_witness :
    AssignVehicleToGroup [⟨1, 4⟩] ⟨9, -2⟩ = (1, true, [⟨1, 6⟩]) ∧
    (4 : Int) < 6 := by
  have h := C10_nonpositive_people [⟨1, 4⟩] ⟨9, -2⟩ 0
    (by decide) (by decide) (by decide) (by decide) (by decide) (by decide)
    (by intro j hj; omega)
  exact ⟨h.1.trans (by decide), by decide⟩

end CarPooling
